import Mathlib

/-!
Verification development for the dotprompt-gen-go schema-dialect parser and
type-model builder.  The Go sources under internal/parser, internal/codegen
and internal/naming are shallowly embedded: decoded generic YAML/JSON values
become the inductive type GoVal (Go maps with string keys are association
lists whose list order stands in for Go's unspecified map iteration order),
Go multi-value returns with an error become Except String, and Go strings
are Lean strings viewed as character sequences (byte offsets in the source
are character offsets here; all inputs of interest are ASCII).
-/

set_option maxRecDepth 10000

namespace DotpromptGen

/-- A decoded generic value, as produced by the YAML/JSON decoder: Go's
interface-typed `any` holding nil, bool, integer, string, slice or
string-keyed map.  Association-list order models Go map iteration order. -/
inductive GoVal where
  | nullV : GoVal
  | boolV (b : Bool) : GoVal
  | intV (n : Int) : GoVal
  | strV (s : String) : GoVal
  | arrV (elems : List GoVal) : GoVal
  | mapV (entries : List (String × GoVal)) : GoVal

mutual

/-- Size of a decoded value, used to provision recursion fuel. -/
def goValSize : GoVal → Nat
  | .nullV => 1
  | .boolV _ => 1
  | .intV _ => 1
  | .strV _ => 1
  | .arrV xs => 1 + goValListSize xs
  | .mapV m => 1 + goValPairsSize m

/-- Size of a slice of decoded values. -/
def goValListSize : List GoVal → Nat
  | [] => 0
  | v :: vs => 1 + goValSize v + goValListSize vs

/-- Size of a map of decoded values. -/
def goValPairsSize : List (String × GoVal) → Nat
  | [] => 0
  | (_, v) :: rest => 1 + goValSize v + goValPairsSize rest

end

/-- Go map indexing `m[k]`: first binding of the key, if any. -/
def lookupVal : List (String × GoVal) → String → Option GoVal
  | [], _ => none
  | (k', v) :: rest, k => if k' = k then some v else lookupVal rest k

/-- Go `_, ok := m[k]` membership test. -/
def containsKey (m : List (String × GoVal)) (k : String) : Bool :=
  (lookupVal m k).isSome

/-- The keys of a Go map, in iteration order. -/
def keysOf (m : List (String × GoVal)) : List String :=
  m.map Prod.fst

theorem lookupVal_sizeOf {m : List (String × GoVal)} {k : String} {v : GoVal}
    (h : lookupVal m k = some v) : sizeOf v < sizeOf m := by
  induction m with
  | nil => simp [lookupVal] at h
  | cons kv rest ih =>
    obtain ⟨k', v'⟩ := kv
    by_cases hk : k' = k
    · simp [lookupVal, hk] at h
      subst h
      simp
      omega
    · simp [lookupVal, hk] at h
      have := ih h
      simp
      omega

/-! ### String helpers modelling the Go strings package -/

/-- Core of `strings.Split` for a non-empty separator `c :: cs`, working
over character lists.  The extra fuel argument (always supplied as more than
the input length, so it never runs out) keeps the recursion structural. -/
def goSplitF (c : Char) (cs : List Char) : Nat → List Char → List (List Char)
  | _, [] => [[]]
  | 0, d :: rest => [d :: rest]
  | fuel + 1, d :: rest =>
    if (c :: cs).isPrefixOf (d :: rest) then
      [] :: goSplitF c cs fuel ((d :: rest).drop (c :: cs).length)
    else
      match goSplitF c cs fuel rest with
      | [] => [[d]]
      | p :: ps => (d :: p) :: ps

/-- `strings.Split(s, sep)`.  The empty-separator case (split into runes) is
never exercised by this code base and degrades to the identity split. -/
def goSplit (s sep : String) : List String :=
  match sep.toList with
  | [] => [s]
  | c :: cs => (goSplitF c cs (s.toList.length + 1) s.toList).map List.asString

theorem goSplitF_ne_nil (c : Char) (cs : List Char) (fuel : Nat)
    (l0 : List Char) : goSplitF c cs fuel l0 ≠ [] := by
  induction fuel generalizing l0 with
  | zero => cases l0 <;> simp [goSplitF]
  | succ fuel ih =>
    cases l0 with
    | nil => simp [goSplitF]
    | cons d rest =>
      rw [goSplitF]
      split
      · simp
      · cases h : goSplitF c cs fuel rest with
        | nil => exact absurd h (ih rest)
        | cons p ps => simp

theorem goSplit_ne_nil (s sep : String) : goSplit s sep ≠ [] := by
  unfold goSplit
  cases h : sep.toList with
  | nil => simp
  | cons c cs =>
    simp only [ne_eq, List.map_eq_nil_iff]
    exact goSplitF_ne_nil c cs _ s.toList

/-- `strings.SplitN(s, sep, 2)`: the part before the first occurrence of
the separator, and the untouched remainder. -/
def goSplitN2 (s sep : String) : List String :=
  match goSplit s sep with
  | [] => [s]
  | [x] => [x]
  | x :: xs => [x, String.intercalate sep xs]

/-- `strings.Contains(s, pat)` for the non-empty patterns used here. -/
def containsSubstr (s pat : String) : Bool :=
  (goSplit s pat).length != 1

/-- `strings.Replace(s, old, new, 1)`: replace the first occurrence only. -/
def replaceFirst (s old new : String) : String :=
  match goSplit s old with
  | x :: y :: rest => x ++ new ++ String.intercalate old (y :: rest)
  | _ => s

/-- `strings.ReplaceAll(s, old, new)` for non-empty `old`. -/
def goReplaceAll (s old new : String) : String :=
  String.intercalate new (goSplit s old)

/-- `strings.TrimSpace`. -/
def goTrim (s : String) : String :=
  ((s.toList.dropWhile Char.isWhitespace).reverse.dropWhile Char.isWhitespace).reverse.asString

/-- `strings.HasSuffix(s, suf)`. -/
def goEndsWith (s suf : String) : Bool :=
  suf.toList.isSuffixOf s.toList

/-- `strings.TrimSuffix(s, suf)`. -/
def goTrimSuffix (s suf : String) : String :=
  if goEndsWith s suf then
    (s.toList.take (s.toList.length - suf.toList.length)).asString
  else s

/-- `strings.HasPrefix(s, p)`. -/
def goStartsWith (s p : String) : Bool :=
  p.toList.isPrefixOf s.toList

/-- Lexicographic (byte-wise in Go, character-wise here) string ordering
used by `sort.Strings`. -/
def strLtChars : List Char → List Char → Bool
  | [], [] => false
  | [], _ :: _ => true
  | _ :: _, [] => false
  | a :: as, b :: bs =>
    if a.toNat < b.toNat then true
    else if b.toNat < a.toNat then false
    else strLtChars as bs

/-- String less-than on the character sequences. -/
def goStrLt (a b : String) : Bool :=
  strLtChars a.toList b.toList

/-- Ascending insertion of a string into a sorted list (for `sort.Strings`). -/
def insertStr (x : String) : List String → List String
  | [] => [x]
  | y :: ys => if !(goStrLt y x) then x :: y :: ys else y :: insertStr x ys

/-- `sort.Strings`: ascending lexicographic sort. -/
def sortStrings (xs : List String) : List String :=
  xs.foldr insertStr []

mutual

/-- `fmt.Sprintf("%v", val)` on a decoded generic value (scalars are what
the enum paths actually render; composites follow fmt's bracketed forms). -/
def renderGoVal : GoVal → String
  | .nullV => "<nil>"
  | .boolV b => if b then "true" else "false"
  | .intV n => toString n
  | .strV s => s
  | .arrV xs => "[" ++ String.intercalate " " (renderGoValList xs) ++ "]"
  | .mapV m => "map[" ++ String.intercalate " " (renderGoValPairs m) ++ "]"

/-- Renders every element of a slice. -/
def renderGoValList : List GoVal → List String
  | [] => []
  | v :: vs => renderGoVal v :: renderGoValList vs

/-- Renders every key:value entry of a map. -/
def renderGoValPairs : List (String × GoVal) → List String
  | [] => []
  | (k, v) :: rest => (k ++ ":" ++ renderGoVal v) :: renderGoValPairs rest

end

/-! ### internal/naming -/

/-- internal/naming.SnakeToPascalCase: split on underscores, uppercase the
first character of each non-empty segment, concatenate. -/
def SnakeToPascalCase (s : String) : String :=
  if s = "" then s
  else
    (goSplit s "_").foldl
      (fun acc part =>
        match part.toList with
        | [] => acc
        | c :: rest => acc ++ (c.toUpper :: rest).asString)
      ""

/-- internal/naming.EnumValueToConstName: replace dashes with underscores,
PascalCase, then prefix with the enum type name. -/
def EnumValueToConstName (enumTypeName enumValue : String) : String :=
  enumTypeName ++ SnakeToPascalCase (goReplaceAll enumValue "-" "_")

/-- internal/naming.SchemaFieldToGoField. -/
def SchemaFieldToGoField (fieldName : String) : String :=
  SnakeToPascalCase fieldName

/-! ### internal/codegen data model -/

/-- codegen.EnumValue. -/
structure EnumValue where
  ConstName : String
  Value : String
deriving DecidableEq, Repr

/-- codegen.GoEnum (`Type` in the Go source is `TypeName` here: `Type` is
reserved in Lean). -/
structure GoEnum where
  Name : String
  Comment : String
  TypeName : String
  Values : List EnumValue
deriving DecidableEq, Repr

/-- codegen.GoField.  `ExtraTags` is the Go string map as an assoc list. -/
structure GoField where
  Name : String := ""
  GoType : String := ""
  JSONTag : String := ""
  Comment : String := ""
  IsEnum : Bool := false
  EnumValues : List String := []
  IsObject : Bool := false
  IsPointer : Bool := false
  ExtraTags : List (String × String) := []
deriving DecidableEq, Repr

/-- codegen.GoStruct (fields unused by the parser keep their defaults). -/
structure GoStruct where
  Name : String
  Comments : List String := []
  Fields : List GoField := []
  Enums : List GoEnum := []
  IsInput : Bool := false
  IsOutput : Bool := false
deriving DecidableEq, Repr

/-! ### internal/parser shared definitions (schema.go) -/

/-- parser.SchemaType with its two constants SchemaTypeInput / SchemaTypeOutput. -/
inductive SchemaType where
  | input : SchemaType
  | output : SchemaType
deriving DecidableEq, Repr

/-- buildRequiredFieldsSet: the Go `map[string]bool` is its characteristic
function (lookup of an absent key is false). -/
def buildRequiredFieldsSet (schemaFields : List (String × GoVal))
    (requiredFields : List String) (schemaType : SchemaType) : String → Bool :=
  match schemaType with
  | .input => fun name => containsKey schemaFields name
  | .output => fun name => requiredFields.contains name

/-- The second loop of buildOrderedFieldNames / getPreservedOrderPropertyNames:
append every key not already listed, in map iteration order. -/
def addRemainingKeys (schemaFields : List (String × GoVal))
    (acc : List String) : List String :=
  schemaFields.foldl
    (fun acc kv => if acc.contains kv.1 then acc else acc ++ [kv.1]) acc

/-- buildOrderedFieldNames: preserved order filtered to present fields with
stragglers appended, or alphabetical fallback. -/
def buildOrderedFieldNames (schemaFields : List (String × GoVal))
    (fieldOrder : List String) : List String :=
  if fieldOrder.length > 0 then
    addRemainingKeys schemaFields
      (fieldOrder.filter fun name => containsKey schemaFields name)
  else
    sortStrings (keysOf schemaFields)

/-- detectPicoschemaFieldType (schema.go). -/
def detectPicoschemaFieldType (fieldStr : String) : String :=
  if containsSubstr fieldStr "(enum" && containsSubstr fieldStr "[" &&
      containsSubstr fieldStr "]" then
    "enum"
  else if containsSubstr fieldStr "(array" && containsSubstr fieldStr ":" then
    "array"
  else
    "simple"

/-! ### Picoschema parser (picoschema.go) -/

/-- getPicoschemaToGoTypeMap / convertPicoschemaTypeToGo: fixed lookup with
fallback to "any". -/
def convertPicoschemaTypeToGo (schemaType : String) : String :=
  if schemaType = "string" then "string"
  else if schemaType = "number" then "float64"
  else if schemaType = "integer" then "int"
  else if schemaType = "boolean" then "bool"
  else if schemaType = "any" then "any"
  else if schemaType = "null" then "*any"
  else "any"

/-- IsPicoschema: a map lacking both a type key and a properties key. -/
def IsPicoschema : GoVal → Bool
  | .mapV m => !containsKey m "type" && !containsKey m "properties"
  | _ => false

/-- createBasePicoschemaField: base field with the optional-marker suffix
stripped from the external name. -/
def createBasePicoschemaField (fieldName : String) : GoField :=
  let field : GoField :=
    { Name := SchemaFieldToGoField fieldName, JSONTag := fieldName, ExtraTags := [] }
  if goEndsWith fieldName "?" then
    { field with JSONTag := goTrimSuffix fieldName "?"
                 Name := SchemaFieldToGoField (goTrimSuffix fieldName "?") }
  else
    field

/-- parseEnumFieldDefinition: split at the first closing bracket; a
description needs a comma right after it. -/
def parseEnumFieldDefinition (fieldStr : String) : String × String :=
  match (fieldStr.toList.findIdx? fun c => c = ']') with
  | none => (fieldStr, "")
  | some closingBracket =>
    let typeDescPart := goTrim (fieldStr.toList.take (closingBracket + 1)).asString
    if closingBracket + 1 ≥ fieldStr.toList.length then (typeDescPart, "")
    else
      let remaining := goTrim (fieldStr.toList.drop (closingBracket + 1)).asString
      if !goStartsWith remaining "," then (typeDescPart, "")
      else (typeDescPart, goTrim (remaining.toList.drop 1).asString)

/-- parseArrayFieldDefinition: split on every comma, head is the type part,
the rejoined tail is the description. -/
def parseArrayFieldDefinition (fieldStr : String) : String × String :=
  let parts := goSplit fieldStr ","
  let typeDescPart := goTrim (parts.headD "")
  if parts.length ≤ 1 then (typeDescPart, "")
  else (typeDescPart, goTrim (String.intercalate "," parts.tail))

/-- parseSimpleFieldDefinition: split on the first comma only. -/
def parseSimpleFieldDefinition (fieldStr : String) : String × String :=
  let parts := goSplitN2 fieldStr ","
  let typeDescPart := goTrim (parts.headD "")
  if parts.length ≤ 1 then (typeDescPart, "")
  else (typeDescPart, goTrim (parts.getD 1 ""))

/-- parseFieldDefinition: dispatch on the detected field kind. -/
def parseFieldDefinition (fieldStr : String) : String × String :=
  let fieldType := detectPicoschemaFieldType fieldStr
  if fieldType = "enum" then parseEnumFieldDefinition fieldStr
  else if fieldType = "array" then parseArrayFieldDefinition fieldStr
  else parseSimpleFieldDefinition fieldStr

/-- One step of the regex `(\w+)\(enum[^)]*\):\s*\[([^\]]+)\]` match attempt
anchored at the current position: word run, literal "(enum", a non-paren
run, "):", whitespace, "[", a non-empty non-bracket run, "]". -/
def picoEnumMatchAt (l : List Char) : Option (String × String) :=
  let word := l.takeWhile fun c => c.isAlphanum || c = '_'
  let rest0 := l.drop word.length
  if word.isEmpty then none
  else if !("(enum".toList.isPrefixOf rest0) then none
  else
    let rest1 := rest0.drop 5
    let inner := rest1.takeWhile fun c => c ≠ ')'
    let rest2 := rest1.drop inner.length
    if !("):".toList.isPrefixOf rest2) then none
    else
      let rest3 := (rest2.drop 2).dropWhile Char.isWhitespace
      match rest3 with
      | '[' :: rest4 =>
        let values := rest4.takeWhile fun c => c ≠ ']'
        let rest5 := rest4.drop values.length
        if values.isEmpty then none
        else
          match rest5 with
          | ']' :: _ => some (word.asString, values.asString)
          | _ => none
      | _ => none

/-- Leftmost match of the enum regex: try every starting position. -/
def picoEnumMatch : List Char → Option (String × String)
  | [] => none
  | c :: rest =>
    match picoEnumMatchAt (c :: rest) with
    | some r => some r
    | none => picoEnumMatch rest

/-- parsePicoschemaEnum: extract base type and values via the regex, build
the enum descriptor and retype the field. -/
def parsePicoschemaEnum (field : GoField) (typeDescPart : String) :
    Except String (GoField × GoEnum) :=
  match picoEnumMatch typeDescPart.toList with
  | none => .error ("invalid enum format: " ++ typeDescPart)
  | some (baseType, valuesStr) =>
    let valueStrs := goSplit valuesStr ","
    let enumTypeName := field.Name ++ "Enum"
    let enumValues := valueStrs.map fun valueStr =>
      let value := goTrim valueStr
      { ConstName := EnumValueToConstName enumTypeName value
        Value := value : EnumValue }
    let field := { field with GoType := enumTypeName
                              IsEnum := true
                              IsPointer := goStartsWith enumTypeName "*" }
    .ok (field, { Name := enumTypeName
                  Comment := "valid " ++ field.JSONTag ++ " values"
                  TypeName := convertPicoschemaTypeToGo baseType
                  Values := enumValues })

/-- handlePicoschemaEnum: parse the enum then pointer-wrap the field type
for non-required output fields. -/
def handlePicoschemaEnum (field : GoField) (typeDescPart : String)
    (isRequired : Bool) (schemaType : SchemaType) :
    Except String (GoField × Option GoEnum) :=
  match parsePicoschemaEnum field typeDescPart with
  | .error e => .error e
  | .ok (field, enumDef) =>
    let field :=
      if schemaType == SchemaType.output && !isRequired then
        { field with GoType := "*" ++ field.GoType }
      else field
    .ok (field, some enumDef)

/-- parsePicoschemaArray: the element type comes from the first
comma-separated part of the field string. -/
def parsePicoschemaArray (field : GoField) (parts : List String) :
    Except String GoField :=
  if parts.length < 1 then .error "array field missing element type"
  else
    .ok { field with
            GoType := "[]" ++ convertPicoschemaTypeToGo (goTrim (parts.headD ""))
            IsPointer := false }

/-- handlePicoschemaArray: strip the "(array)" marker from the name and
parse the element type; arrays are never pointer-wrapped. -/
def handlePicoschemaArray (field : GoField) (fieldName fieldStr : String)
    (_typeDescPart : String) : Except String (GoField × Option GoEnum) :=
  let cleanFieldName := replaceFirst fieldName "(array)" ""
  let field := { field with Name := SchemaFieldToGoField cleanFieldName
                            JSONTag := cleanFieldName }
  let parts := goSplit fieldStr ","
  match parsePicoschemaArray field parts with
  | .error e => .error e
  | .ok field => .ok (field, none)

/-- handleSimplePicoschemaType: map the primitive name, pointer-wrap
non-required output fields unless the type is a slice. -/
def handleSimplePicoschemaType (field : GoField) (typeDescPart : String)
    (isRequired : Bool) (schemaType : SchemaType) : GoField :=
  let field := { field with GoType := convertPicoschemaTypeToGo typeDescPart }
  let field :=
    if schemaType == SchemaType.output && !isRequired &&
        !goStartsWith field.GoType "[]" then
      { field with GoType := "*" ++ field.GoType }
    else field
  { field with IsPointer := goStartsWith field.GoType "*" }

/-- parsePicoschemaField: a field definition must be a string; dispatch on
enum marker in the value, then array marker in the name, else simple. -/
def parsePicoschemaField (fieldName : String) (fieldDef : GoVal)
    (isRequired : Bool) (schemaType : SchemaType) :
    Except String (GoField × Option GoEnum) :=
  match fieldDef with
  | .strV fieldStr =>
    let field0 := createBasePicoschemaField fieldName
    let (typeDescPart, description) := parseFieldDefinition fieldStr
    let field := { field0 with Comment := description }
    if containsSubstr typeDescPart "(enum" then
      handlePicoschemaEnum field typeDescPart isRequired schemaType
    else if containsSubstr fieldName "(array)" then
      handlePicoschemaArray field fieldName fieldStr typeDescPart
    else
      .ok (handleSimplePicoschemaType field typeDescPart isRequired schemaType, none)
  | _ => .error "picoschema field must be a string"

/-- The field loop of parsePicoschemaWithFieldOrder: fail fast, wrapping the
error with the offending field name. -/
def parsePicoschemaFields (schemaMap : List (String × GoVal))
    (fieldNames : List String) (requiredSet : String → Bool)
    (schemaType : SchemaType) : Except String (List GoField × List GoEnum) :=
  match fieldNames with
  | [] => .ok ([], [])
  | fieldName :: rest =>
    let fieldDef := (lookupVal schemaMap fieldName).getD GoVal.nullV
    match parsePicoschemaField fieldName fieldDef (requiredSet fieldName) schemaType with
    | .error e => .error ("failed to parse field " ++ fieldName ++ ": " ++ e)
    | .ok (field, enumDef) =>
      match parsePicoschemaFields schemaMap rest requiredSet schemaType with
      | .error e => .error e
      | .ok (fields, enums) =>
        .ok (field :: fields,
             (match enumDef with | some e => [e] | none => []) ++ enums)

/-- parsePicoschemaWithFieldOrder (picoschema.go). -/
def parsePicoschemaWithFieldOrder (schema : GoVal) (requiredFields : List String)
    (schemaType : SchemaType) (fieldOrder : List String) :
    Except String (List GoField × List GoEnum) :=
  match schema with
  | .mapV schemaMap =>
    let requiredSet := buildRequiredFieldsSet schemaMap requiredFields schemaType
    let fieldNames := buildOrderedFieldNames schemaMap fieldOrder
    parsePicoschemaFields schemaMap fieldNames requiredSet schemaType
  | _ => .error "schema must be an object"

/-! ### JSON Schema parser (jsonschema.go) -/

/-- getJSONSchemaToGoTypeMap / convertJSONSchemaTypeToGo. -/
def convertJSONSchemaTypeToGo (schemaType : String) : String :=
  if schemaType = "string" then "string"
  else if schemaType = "number" then "float64"
  else if schemaType = "integer" then "int"
  else if schemaType = "boolean" then "bool"
  else if schemaType = "array" then "[]"
  else "any"

/-- IsJSONSchema: a map having a type key or a properties key. -/
def IsJSONSchema : GoVal → Bool
  | .mapV m => containsKey m "type" || containsKey m "properties"
  | _ => false

/-- createBaseField: name, wire tag, description and extra tags. -/
def createBaseField (fieldName : String)
    (fieldDefMap : List (String × GoVal)) : GoField :=
  { Name := SchemaFieldToGoField fieldName
    JSONTag := fieldName
    Comment :=
      match lookupVal fieldDefMap "description" with
      | some (.strV d) => d
      | _ => ""
    ExtraTags :=
      match lookupVal fieldDefMap "x-codegen-extra-tags" with
      | some (.mapV tags) =>
        tags.foldl (fun acc kv =>
          match kv.2 with
          | .strV s => acc ++ [(kv.1, s)]
          | _ => acc) []
      | _ => [] }

/-- getFieldTypeFromSchema: the type key as a string, defaulting to "any". -/
def getFieldTypeFromSchema (fieldDefMap : List (String × GoVal)) : String :=
  match lookupVal fieldDefMap "type" with
  | some (.strV t) => t
  | _ => "any"

/-- hasEnum: presence of the enum key. -/
def hasEnum (fieldDefMap : List (String × GoVal)) : Bool :=
  containsKey fieldDefMap "enum"

/-- parseJSONSchemaEnum: enum values must be a list; each rendered value
becomes a constant of the synthesized `<Field>Enum` type. -/
def parseJSONSchemaEnum (field : GoField) (_fieldType : String)
    (enumValues : GoVal) : Except String (GoField × GoEnum) :=
  match enumValues with
  | .arrV enumSlice =>
    let enumTypeName := field.Name ++ "Enum"
    let values := enumSlice.map fun val =>
      let valueStr := renderGoVal val
      { ConstName := EnumValueToConstName enumTypeName valueStr
        Value := valueStr : EnumValue }
    let field := { field with GoType := enumTypeName
                              IsEnum := true
                              IsPointer := goStartsWith enumTypeName "*" }
    .ok (field, { Name := enumTypeName
                  Comment := "valid " ++ field.JSONTag ++ " values"
                  TypeName := "string"
                  Values := values })
  | _ => .error "enum values must be an array"

/-- parseJSONSchemaArrayEnum: items with enum values yield an array of a
synthesized `<Field>ItemEnum` type. -/
def parseJSONSchemaArrayEnum (field : GoField)
    (itemsMap : List (String × GoVal)) : Except String (GoField × GoEnum) :=
  match lookupVal itemsMap "enum" |>.getD GoVal.nullV with
  | .arrV enumSlice =>
    let enumTypeName := field.Name ++ "ItemEnum"
    let values := enumSlice.map fun val =>
      let valueStr := renderGoVal val
      { ConstName := EnumValueToConstName enumTypeName valueStr
        Value := valueStr : EnumValue }
    let field := { field with GoType := "[]" ++ enumTypeName
                              IsEnum := false
                              IsPointer := false }
    .ok (field, { Name := enumTypeName
                  Comment := "valid " ++ field.JSONTag ++ " item values"
                  TypeName := "string"
                  Values := values })
  | _ => .error "enum values must be an array"

/-- parseJSONSchemaArray: arrays of primitives, defaulting the element type
to any when items or its type is absent or not a string. -/
def parseJSONSchemaArray (field : GoField)
    (fieldDefMap : List (String × GoVal)) : GoField :=
  match lookupVal fieldDefMap "items" with
  | none => { field with GoType := "[]any" }
  | some (.mapV itemsMap) =>
    match lookupVal itemsMap "type" with
    | some (.strV itemType) =>
      { field with GoType := "[]" ++ convertJSONSchemaTypeToGo itemType }
    | _ => { field with GoType := "[]any" }
  | some _ => { field with GoType := "[]any" }

/-- extractRequiredFields: string entries of the required list, in order. -/
def extractRequiredFields (fieldDefMap : List (String × GoVal)) : List String :=
  match lookupVal fieldDefMap "required" with
  | some (.arrV required) =>
    required.filterMap fun req =>
      match req with
      | .strV s => some s
      | _ => none
  | _ => []

/-- getPreservedOrderPropertyNames: the supplied order filtered to present
fields, then present-but-unlisted fields in map iteration order. -/
def getPreservedOrderPropertyNames (properties : List (String × GoVal))
    (fieldOrder : List String) : List String :=
  addRemainingKeys properties
    (fieldOrder.filter fun name => containsKey properties name)

/-- getAlphabeticalPropertyNames. -/
def getAlphabeticalPropertyNames (properties : List (String × GoVal)) :
    List String :=
  sortStrings (keysOf properties)

/-- getOrderedPropertyNames: the nested-order entry is looked up by the
field's bare wire tag, not by any dotted path. -/
def getOrderedPropertyNames (properties : List (String × GoVal))
    (fieldJSONTag : String)
    (nestedFieldOrder : List (String × List String)) : List String :=
  let fieldOrderForThisStruct := (nestedFieldOrder.lookup fieldJSONTag).getD []
  if fieldOrderForThisStruct.length > 0 then
    getPreservedOrderPropertyNames properties fieldOrderForThisStruct
  else
    getAlphabeticalPropertyNames properties

/-- createNestedStruct. -/
def createNestedStruct (structName comment : String)
    (fields : List GoField) : GoStruct :=
  { Name := structName
    Comments := [structName ++ " represents " ++ comment]
    Fields := fields }

/-- updateFieldForStruct: retype the field to the synthesized struct. -/
def updateFieldForStruct (field : GoField) (structName : String) : GoField :=
  { field with GoType := structName
               IsObject := true
               IsPointer := goStartsWith structName "*" }

/-- The four return values (field, enums, direct struct, deeper structs) of
the recursive field parser. -/
structure ParsedField where
  field : GoField
  enums : List GoEnum
  directStruct : Option GoStruct
  nestedStructs : List GoStruct
deriving DecidableEq, Repr

/-- handleEnumField: parse the enum, then pointer-wrap the field type for
non-required output fields. -/
def handleEnumField (field : GoField) (fieldType : String)
    (fieldDefMap : List (String × GoVal)) (isRequired : Bool)
    (schemaType : SchemaType) : Except String ParsedField :=
  match parseJSONSchemaEnum field fieldType
      ((lookupVal fieldDefMap "enum").getD GoVal.nullV) with
  | .error e => .error e
  | .ok (field, enumDef) =>
    let field :=
      if schemaType == SchemaType.output && !isRequired then
        { field with GoType := "*" ++ field.GoType }
      else field
    .ok ⟨field, [enumDef], none, []⟩

/-- handleSimpleField: map the type, pointer-wrap non-required output fields
unless the type is a slice, then recompute the pointer flag. -/
def handleSimpleField (field : GoField) (fieldType : String)
    (isRequired : Bool) (schemaType : SchemaType) : ParsedField :=
  let field := { field with GoType := convertJSONSchemaTypeToGo fieldType }
  let field :=
    if schemaType == SchemaType.output && !isRequired &&
        !goStartsWith field.GoType "[]" then
      { field with GoType := "*" ++ field.GoType }
    else field
  ⟨{ field with IsPointer := goStartsWith field.GoType "*" }, [], none, []⟩

mutual

/-- parseJSONSchemaFieldWithNestedRecursive: dispatch a single field on its
shape (enum, array, object, simple).  The fuel argument keeps the mutual
recursion structural; the root entry point supplies more fuel than the
recursion can ever consume (the source instead relies on the recursion
depth being bounded by the schema value itself), so the exhaustion branch
is unreachable from the public entry points. -/
def parseJSONSchemaFieldWithNestedRecursive (fuel : Nat) (fieldName : String)
    (fieldDef : GoVal) (isRequired : Bool) (parentStructName : String)
    (schemaType : SchemaType)
    (nestedFieldOrder : List (String × List String)) :
    Except String ParsedField :=
  match fuel with
  | 0 => .error "recursion depth exceeded"
  | fuel + 1 =>
    match fieldDef with
    | .mapV fieldDefMap =>
      let field := createBaseField fieldName fieldDefMap
      let fieldType := getFieldTypeFromSchema fieldDefMap
      if hasEnum fieldDefMap then
        handleEnumField field fieldType fieldDefMap isRequired schemaType
      else if fieldType == "array" then
        handleArrayField fuel field fieldDefMap isRequired schemaType
      else if fieldType == "object" then
        handleObjectField fuel field fieldDefMap parentStructName schemaType
          nestedFieldOrder
      else
        .ok (handleSimpleField field fieldType isRequired schemaType)
    | _ => .error "JSON schema field must be an object"

/-- handleArrayField: arrays of objects-with-properties synthesize an item
struct, arrays with item enums an item enum, everything else a primitive
slice. -/
def handleArrayField (fuel : Nat) (field : GoField)
    (fieldDefMap : List (String × GoVal)) (_isRequired : Bool)
    (schemaType : SchemaType) : Except String ParsedField :=
  match fuel with
  | 0 => .error "recursion depth exceeded"
  | fuel + 1 =>
    match lookupVal fieldDefMap "items" with
    | none => .ok ⟨parseJSONSchemaArray field fieldDefMap, [], none, []⟩
    | some (.mapV itemsMap) =>
      let itemTypeIsObject :=
        match lookupVal itemsMap "type" with
        | some (.strV t) => t == "object"
        | _ => false
      let hasProperties :=
        match lookupVal itemsMap "properties" with
        | some (.mapV _) => true
        | _ => false
      if itemTypeIsObject && hasProperties then
        handleObjectArrayField fuel field itemsMap schemaType
      else if containsKey itemsMap "enum" then
        match parseJSONSchemaArrayEnum field itemsMap with
        | .error e => .error e
        | .ok (updatedField, enumDef) =>
          .ok ⟨updatedField, [enumDef], none, []⟩
      else
        .ok ⟨parseJSONSchemaArray field fieldDefMap, [], none, []⟩
    | some _ => .ok ⟨parseJSONSchemaArray field fieldDefMap, [], none, []⟩

/-- handleObjectArrayField: parse the items object as a direct object field
named `<Field>Item` and retype the array to `[]<Field>Item`. -/
def handleObjectArrayField (fuel : Nat) (field : GoField)
    (itemsMap : List (String × GoVal)) (schemaType : SchemaType) :
    Except String ParsedField :=
  match fuel with
  | 0 => .error "recursion depth exceeded"
  | fuel + 1 =>
    let itemStructName := field.Name ++ "Item"
    let itemField : GoField :=
      { Name := itemStructName
        JSONTag := field.JSONTag ++ "_item"
        Comment :=
          match lookupVal itemsMap "description" with
          | some (.strV d) => d
          | _ => "item in " ++ field.JSONTag ++ " array" }
    match parseJSONSchemaObjectField fuel itemField itemsMap schemaType [] with
    | .error e => .error ("failed to parse array item object: " ++ e)
    | .ok pf =>
      .ok ⟨{ field with GoType := "[]" ++ itemStructName },
           pf.enums, pf.directStruct, pf.nestedStructs⟩

/-- handleObjectField: prefix the name with every ancestor struct name. -/
def handleObjectField (fuel : Nat) (field : GoField)
    (fieldDefMap : List (String × GoVal)) (parentStructName : String)
    (schemaType : SchemaType)
    (nestedFieldOrder : List (String × List String)) :
    Except String ParsedField :=
  match fuel with
  | 0 => .error "recursion depth exceeded"
  | fuel + 1 =>
    let field :=
      if parentStructName != "" then
        { field with Name := parentStructName ++ field.Name }
      else field
    parseJSONSchemaObjectField fuel field fieldDefMap schemaType
      nestedFieldOrder

/-- parseJSONSchemaObjectField: an object field without a properties map
degrades to `map[string]any`; otherwise synthesize a nested struct from the
ordered properties. -/
def parseJSONSchemaObjectField (fuel : Nat) (field : GoField)
    (fieldDefMap : List (String × GoVal)) (schemaType : SchemaType)
    (nestedFieldOrder : List (String × List String)) :
    Except String ParsedField :=
  match fuel with
  | 0 => .error "recursion depth exceeded"
  | fuel + 1 =>
    let structName := field.Name
    match lookupVal fieldDefMap "properties" with
    | some (.mapV properties) =>
      let requiredFields := extractRequiredFields fieldDefMap
      let propNames := getOrderedPropertyNames properties field.JSONTag
        nestedFieldOrder
      match processNestedProperties fuel properties propNames requiredFields
          structName schemaType nestedFieldOrder with
      | .error e => .error e
      | .ok (nestedFields, allEnums, allDeeplyNestedStructs) =>
        .ok ⟨updateFieldForStruct field structName, allEnums,
             some (createNestedStruct structName field.Comment nestedFields),
             allDeeplyNestedStructs⟩
    | _ => .ok ⟨{ field with GoType := "map[string]any" }, [], none, []⟩

/-- processNestedProperties: fail-fast left-to-right loop over the ordered
property names, wrapping errors with the nested field's name.  A name absent
from the map would reach the field parser as Go's nil interface and be
rejected as a non-map; that error is produced directly here. -/
def processNestedProperties (fuel : Nat)
    (properties : List (String × GoVal)) (propNames : List String)
    (requiredFields : List String) (structName : String)
    (schemaType : SchemaType)
    (nestedFieldOrder : List (String × List String)) :
    Except String (List GoField × List GoEnum × List GoStruct) :=
  match fuel with
  | 0 => .error "recursion depth exceeded"
  | fuel + 1 =>
    match propNames with
    | [] => .ok ([], [], [])
    | propName :: rest =>
      match lookupVal properties propName with
      | none =>
        .error ("failed to parse nested field " ++ propName ++
          ": JSON schema field must be an object")
      | some propDef =>
        match parseJSONSchemaFieldWithNestedRecursive fuel propName propDef
            (requiredFields.contains propName) structName schemaType
            nestedFieldOrder with
        | .error e =>
          .error ("failed to parse nested field " ++ propName ++ ": " ++ e)
        | .ok pf =>
          match processNestedProperties fuel properties rest requiredFields
              structName schemaType nestedFieldOrder with
          | .error e => .error e
          | .ok (nestedFields, allEnums, allDeeplyNestedStructs) =>
            .ok (pf.field :: nestedFields, pf.enums ++ allEnums,
                 (match pf.directStruct with | some s => [s] | none => []) ++
                   pf.nestedStructs ++ allDeeplyNestedStructs)

end

/-- The root field loop of parseJSONSchemaWithStructsAndFieldOrderAndNested:
fail fast, wrapping errors with the field name; Go's nil interface for an
absent key is GoVal.nullV. -/
def parseRootFields (fuel : Nat) (properties : List (String × GoVal))
    (fieldNames : List String) (requiredSet : String → Bool)
    (schemaType : SchemaType)
    (nestedFieldOrder : List (String × List String)) :
    Except String (List GoField × List GoEnum × List GoStruct) :=
  match fieldNames with
  | [] => .ok ([], [], [])
  | fieldName :: rest =>
    let fieldDef := (lookupVal properties fieldName).getD GoVal.nullV
    match parseJSONSchemaFieldWithNestedRecursive fuel fieldName fieldDef
        (requiredSet fieldName) "" schemaType nestedFieldOrder with
    | .error e => .error ("failed to parse field " ++ fieldName ++ ": " ++ e)
    | .ok pf =>
      match parseRootFields fuel properties rest requiredSet schemaType
          nestedFieldOrder with
      | .error e => .error e
      | .ok (fields, enums, allStructs) =>
        .ok (pf.field :: fields, pf.enums ++ enums,
             (match pf.directStruct with | some s => [s] | none => []) ++
               pf.nestedStructs ++ allStructs)

/-- parseJSONSchemaWithStructsAndFieldOrderAndNested: the root schema must
be a map with a properties map. -/
def parseJSONSchemaWithStructsAndFieldOrderAndNested (schema : GoVal)
    (requiredFields : List String) (schemaType : SchemaType)
    (fieldOrder : List String)
    (nestedFieldOrder : List (String × List String)) :
    Except String (List GoField × List GoEnum × List GoStruct) :=
  match schema with
  | .mapV schemaMap =>
    match lookupVal schemaMap "properties" with
    | some (.mapV properties) =>
      let requiredSet := buildRequiredFieldsSet properties requiredFields
        schemaType
      let fieldNames := buildOrderedFieldNames properties fieldOrder
      parseRootFields (8 * goValSize schema + 8) properties fieldNames
        requiredSet schemaType nestedFieldOrder
    | _ => .error "JSON schema must have properties"
  | _ => .error "schema must be an object"

/-- parseJSONSchemaWithStructsAndFieldOrder: no nested field order. -/
def parseJSONSchemaWithStructsAndFieldOrder (schema : GoVal)
    (requiredFields : List String) (schemaType : SchemaType)
    (fieldOrder : List String) :
    Except String (List GoField × List GoEnum × List GoStruct) :=
  parseJSONSchemaWithStructsAndFieldOrderAndNested schema requiredFields
    schemaType fieldOrder []

/-- ParseJSONSchemaWithNestedFieldOrder (public wrapper). -/
def ParseJSONSchemaWithNestedFieldOrder (schema : GoVal)
    (requiredFields : List String) (schemaType : SchemaType)
    (fieldOrder : List String)
    (nestedFieldOrder : List (String × List String)) :
    Except String (List GoField × List GoEnum × List GoStruct) :=
  parseJSONSchemaWithStructsAndFieldOrderAndNested schema requiredFields
    schemaType fieldOrder nestedFieldOrder

/-- ParseSchemaWithStructsAndFieldOrder (schema.go): nil schema returns an
empty result; otherwise detect the dialect or fail. -/
def ParseSchemaWithStructsAndFieldOrder (schema : GoVal)
    (requiredFields : List String) (schemaType : SchemaType)
    (fieldOrder : List String) :
    Except String (List GoField × List GoEnum × List GoStruct) :=
  match schema with
  | .nullV => .ok ([], [], [])
  | _ =>
    if IsPicoschema schema then
      match parsePicoschemaWithFieldOrder schema requiredFields schemaType
          fieldOrder with
      | .error e => .error e
      | .ok (fields, enums) => .ok (fields, enums, [])
    else if IsJSONSchema schema then
      parseJSONSchemaWithStructsAndFieldOrder schema requiredFields schemaType
        fieldOrder
    else
      .error "unsupported schema format"

/-- ParseSchemaWithStructs. -/
def ParseSchemaWithStructs (schema : GoVal) (requiredFields : List String)
    (schemaType : SchemaType) :
    Except String (List GoField × List GoEnum × List GoStruct) :=
  ParseSchemaWithStructsAndFieldOrder schema requiredFields schemaType []

/-! ## Helper lemmas -/

theorem parsePicoschema_input_indep (schema : GoVal) (rf1 rf2 : List String)
    (fo : List String) :
    parsePicoschemaWithFieldOrder schema rf1 .input fo =
      parsePicoschemaWithFieldOrder schema rf2 .input fo := by
  cases schema <;>
    simp [parsePicoschemaWithFieldOrder, buildRequiredFieldsSet]

theorem parseJSONSchema_input_indep (schema : GoVal) (rf1 rf2 : List String)
    (fo : List String) (nfo : List (String × List String)) :
    parseJSONSchemaWithStructsAndFieldOrderAndNested schema rf1 .input fo nfo =
      parseJSONSchemaWithStructsAndFieldOrderAndNested schema rf2 .input fo nfo := by
  cases schema <;>
    simp [parseJSONSchemaWithStructsAndFieldOrderAndNested, buildRequiredFieldsSet]

/-! ## Claim theorems -/

/-- C3 counterexample: a nil (absent/null) root schema value does NOT make
the parse fail; it returns an empty successful result, contradicting the
claim that every non-map root value (including null) fails. -/
theorem C3_nil_root_parses_ok_cex :
    ParseSchemaWithStructsAndFieldOrder GoVal.nullV [] .output [] =
      .ok ([], [], []) := rfl

/-- C3 amended: a map lacking both the type key and the properties key is
parsed as compact schema; a map having either key is parsed as structured
schema; every non-map, non-null root fails with the unsupported-schema-shape
error; a null root returns an empty successful result. -/
theorem C3_format_detection_amended :
    (∀ entries rf st fo,
      containsKey entries "type" = false →
      containsKey entries "properties" = false →
      ParseSchemaWithStructsAndFieldOrder (.mapV entries) rf st fo =
        match parsePicoschemaWithFieldOrder (.mapV entries) rf st fo with
        | .error e => .error e
        | .ok (fields, enums) => .ok (fields, enums, [])) ∧
    (∀ entries rf st fo,
      (containsKey entries "type" || containsKey entries "properties") = true →
      ParseSchemaWithStructsAndFieldOrder (.mapV entries) rf st fo =
        parseJSONSchemaWithStructsAndFieldOrder (.mapV entries) rf st fo) ∧
    (∀ s rf st fo, ParseSchemaWithStructsAndFieldOrder (.strV s) rf st fo =
        .error "unsupported schema format") ∧
    (∀ b rf st fo, ParseSchemaWithStructsAndFieldOrder (.boolV b) rf st fo =
        .error "unsupported schema format") ∧
    (∀ n rf st fo, ParseSchemaWithStructsAndFieldOrder (.intV n) rf st fo =
        .error "unsupported schema format") ∧
    (∀ xs rf st fo, ParseSchemaWithStructsAndFieldOrder (.arrV xs) rf st fo =
        .error "unsupported schema format") ∧
    (∀ rf st fo, ParseSchemaWithStructsAndFieldOrder .nullV rf st fo =
        .ok ([], [], [])) := by
  refine ⟨?_, ?_, ?_, ?_, ?_, ?_, ?_⟩
  · intro entries rf st fo htype hprops
    simp [ParseSchemaWithStructsAndFieldOrder, IsPicoschema, htype, hprops]
  · intro entries rf st fo h
    simp [ParseSchemaWithStructsAndFieldOrder, IsPicoschema, IsJSONSchema, h]
    rcases Bool.or_eq_true_iff.mp h with h1 | h1 <;> simp [h1]
  · intro s rf st fo
    rfl
  · intro b rf st fo
    rfl
  · intro n rf st fo
    rfl
  · intro xs rf st fo
    rfl
  · intro rf st fo
    rfl

/-- C3 amended witness at concrete inputs discharging the hypotheses. -/
theorem C3_format_detection_amended_witness :
    (containsKey [("name", GoVal.strV "string, x")] "type" = false ∧
     containsKey [("name", GoVal.strV "string, x")] "properties" = false ∧
     ParseSchemaWithStructsAndFieldOrder
        (.mapV [("name", GoVal.strV "string, x")]) [] .input [] =
       match parsePicoschemaWithFieldOrder
           (.mapV [("name", GoVal.strV "string, x")]) [] .input [] with
       | .error e => .error e
       | .ok (fields, enums) => .ok (fields, enums, [])) ∧
    ((containsKey [("type", GoVal.strV "object")] "type" ||
        containsKey [("type", GoVal.strV "object")] "properties") = true ∧
     ParseSchemaWithStructsAndFieldOrder
        (.mapV [("type", GoVal.strV "object")]) [] .input [] =
       parseJSONSchemaWithStructsAndFieldOrder
        (.mapV [("type", GoVal.strV "object")]) [] .input []) := by
  refine ⟨⟨by decide, by decide, ?_⟩, ⟨by decide, ?_⟩⟩
  · exact C3_format_detection_amended.1 _ [] .input [] (by decide) (by decide)
  · exact C3_format_detection_amended.2.1 _ [] .input [] (by decide)

/-- C10: a root map with a type key but no properties map always routes to
the structured parser and fails; the structured parser never succeeds
without a root properties map. -/
theorem C10_structured_requires_properties :
    (∀ entries rf st fo,
      containsKey entries "type" = true →
      (∀ props, lookupVal entries "properties" ≠ some (.mapV props)) →
      ParseSchemaWithStructsAndFieldOrder (.mapV entries) rf st fo =
        .error "JSON schema must have properties") ∧
    (∀ schema rf st fo nfo,
      (∀ m props, schema = .mapV m →
        lookupVal m "properties" ≠ some (.mapV props)) →
      ∃ e, parseJSONSchemaWithStructsAndFieldOrderAndNested schema rf st fo
        nfo = .error e) := by
  constructor
  · intro entries rf st fo htype hprops
    have hdetect : IsPicoschema (.mapV entries) = false := by
      simp [IsPicoschema, htype]
    have hjson : IsJSONSchema (.mapV entries) = true := by
      simp [IsJSONSchema, htype]
    cases hv : lookupVal entries "properties" with
    | none =>
      simp [ParseSchemaWithStructsAndFieldOrder, hdetect, hjson,
        parseJSONSchemaWithStructsAndFieldOrder,
        parseJSONSchemaWithStructsAndFieldOrderAndNested, hv]
    | some v =>
      cases v with
      | mapV props => exact absurd hv (hprops props)
      | nullV =>
        simp [ParseSchemaWithStructsAndFieldOrder, hdetect, hjson,
          parseJSONSchemaWithStructsAndFieldOrder,
          parseJSONSchemaWithStructsAndFieldOrderAndNested, hv]
      | boolV b =>
        simp [ParseSchemaWithStructsAndFieldOrder, hdetect, hjson,
          parseJSONSchemaWithStructsAndFieldOrder,
          parseJSONSchemaWithStructsAndFieldOrderAndNested, hv]
      | intV n =>
        simp [ParseSchemaWithStructsAndFieldOrder, hdetect, hjson,
          parseJSONSchemaWithStructsAndFieldOrder,
          parseJSONSchemaWithStructsAndFieldOrderAndNested, hv]
      | strV s =>
        simp [ParseSchemaWithStructsAndFieldOrder, hdetect, hjson,
          parseJSONSchemaWithStructsAndFieldOrder,
          parseJSONSchemaWithStructsAndFieldOrderAndNested, hv]
      | arrV xs =>
        simp [ParseSchemaWithStructsAndFieldOrder, hdetect, hjson,
          parseJSONSchemaWithStructsAndFieldOrder,
          parseJSONSchemaWithStructsAndFieldOrderAndNested, hv]
  · intro schema rf st fo nfo h
    cases schema with
    | mapV m =>
      simp only [parseJSONSchemaWithStructsAndFieldOrderAndNested]
      cases hv : lookupVal m "properties" with
      | none => exact ⟨_, rfl⟩
      | some v =>
        cases v with
        | mapV props => exact absurd hv (h m props rfl)
        | nullV => exact ⟨_, rfl⟩
        | boolV b => exact ⟨_, rfl⟩
        | intV n => exact ⟨_, rfl⟩
        | strV s => exact ⟨_, rfl⟩
        | arrV xs => exact ⟨_, rfl⟩
    | nullV => exact ⟨_, rfl⟩
    | boolV b => exact ⟨_, rfl⟩
    | intV n => exact ⟨_, rfl⟩
    | strV s => exact ⟨_, rfl⟩
    | arrV xs => exact ⟨_, rfl⟩

/-- C10 witness at the schema {"type": "string"}. -/
theorem C10_structured_requires_properties_witness :
    (containsKey [("type", GoVal.strV "string")] "type" = true ∧
     ParseSchemaWithStructsAndFieldOrder
        (.mapV [("type", GoVal.strV "string")]) [] .output [] =
       .error "JSON schema must have properties") ∧
    (∃ e, parseJSONSchemaWithStructsAndFieldOrderAndNested
        (.mapV [("type", GoVal.strV "string")]) [] .output [] [] =
      .error e) := by
  refine ⟨⟨by decide, ?_⟩, ?_⟩
  · exact C10_structured_requires_properties.1 _ [] .output []
      (by decide) (fun props h => by simp [lookupVal] at h)
  · exact C10_structured_requires_properties.2 _ [] .output [] []
      (fun m props hm h => by
        cases hm
        simp [lookupVal] at h)

/-- C4: for role input the parse result is independent of the requiredFields
argument (both dialects, with or without nested order) and every present
field is in the required set; for role output the required set is exactly
membership of the requiredFields list. -/
theorem C4_requiredness_policy :
    (∀ schema rf1 rf2 fo,
      ParseSchemaWithStructsAndFieldOrder schema rf1 .input fo =
        ParseSchemaWithStructsAndFieldOrder schema rf2 .input fo) ∧
    (∀ schema rf1 rf2 fo nfo,
      ParseJSONSchemaWithNestedFieldOrder schema rf1 .input fo nfo =
        ParseJSONSchemaWithNestedFieldOrder schema rf2 .input fo nfo) ∧
    (∀ props rf name,
      buildRequiredFieldsSet props rf .output name = rf.contains name) ∧
    (∀ props rf name, containsKey props name = true →
      buildRequiredFieldsSet props rf .input name = true) := by
  refine ⟨?_, ?_, ?_, ?_⟩
  · intro schema rf1 rf2 fo
    simp only [ParseSchemaWithStructsAndFieldOrder]
    cases schema with
    | nullV => rfl
    | mapV m =>
      rw [parsePicoschema_input_indep _ rf1 rf2,
        show parseJSONSchemaWithStructsAndFieldOrder (.mapV m) rf1 .input fo =
          parseJSONSchemaWithStructsAndFieldOrder (.mapV m) rf2 .input fo from
          parseJSONSchema_input_indep _ rf1 rf2 fo []]
    | boolV b =>
      rw [parsePicoschema_input_indep _ rf1 rf2,
        show parseJSONSchemaWithStructsAndFieldOrder (.boolV b) rf1 .input fo =
          parseJSONSchemaWithStructsAndFieldOrder (.boolV b) rf2 .input fo from
          parseJSONSchema_input_indep _ rf1 rf2 fo []]
    | intV n =>
      rw [parsePicoschema_input_indep _ rf1 rf2,
        show parseJSONSchemaWithStructsAndFieldOrder (.intV n) rf1 .input fo =
          parseJSONSchemaWithStructsAndFieldOrder (.intV n) rf2 .input fo from
          parseJSONSchema_input_indep _ rf1 rf2 fo []]
    | strV s =>
      rw [parsePicoschema_input_indep _ rf1 rf2,
        show parseJSONSchemaWithStructsAndFieldOrder (.strV s) rf1 .input fo =
          parseJSONSchemaWithStructsAndFieldOrder (.strV s) rf2 .input fo from
          parseJSONSchema_input_indep _ rf1 rf2 fo []]
    | arrV xs =>
      rw [parsePicoschema_input_indep _ rf1 rf2,
        show parseJSONSchemaWithStructsAndFieldOrder (.arrV xs) rf1 .input fo =
          parseJSONSchemaWithStructsAndFieldOrder (.arrV xs) rf2 .input fo from
          parseJSONSchema_input_indep _ rf1 rf2 fo []]
  · intro schema rf1 rf2 fo nfo
    exact parseJSONSchema_input_indep schema rf1 rf2 fo nfo
  · intro props rf name
    rfl
  · intro props rf name h
    simpa [buildRequiredFieldsSet] using h

/-- C4 witness instantiating the hypothesis-bearing part at a present key. -/
theorem C4_requiredness_policy_witness :
    containsKey [("name", GoVal.strV "string")] "name" = true ∧
    buildRequiredFieldsSet [("name", GoVal.strV "string")] ["other"] .input
      "name" = true := by
  refine ⟨by decide, ?_⟩
  exact C4_requiredness_policy.2.2.2 _ ["other"] "name" (by decide)

/-- C5 counterexample: a compact array field whose value string carries no
element type at all parses successfully (element type falls back to
untyped-any), instead of failing with an invalid-array-declaration error. -/
theorem C5_missing_element_type_accepted_cex :
    parsePicoschemaField "tags(array)" (.strV "") true .input =
      .ok ({ Name := "Tags", GoType := "[]any", JSONTag := "tags" }, none) :=
  rfl

/-- C5 amended: a compact array field can never fail with the
invalid-array-declaration error; splitting the value string always yields at
least one part, so the error branch is unreachable and a missing element
type degrades to an untyped-any element. -/
theorem C5_array_declaration_never_fails :
    ∀ (field : GoField) (fieldName fieldStr typeDescPart : String),
      ∃ f, handlePicoschemaArray field fieldName fieldStr typeDescPart =
        .ok (f, none) := by
  intro field fieldName fieldStr typeDescPart
  simp only [handlePicoschemaArray, parsePicoschemaArray]
  cases hs : goSplit fieldStr "," with
  | nil => exact absurd hs (goSplit_ne_nil fieldStr ",")
  | cons a l =>
    simp

/-- C6 counterexample: a `?`-suffixed compact field is NOT unconditionally
marked optional: with role output and the raw name in requiredFields the
field stays required (its type is not pointer-wrapped). -/
theorem C6_optional_marker_required_cex :
    parsePicoschemaWithFieldOrder (.mapV [("age?", .strV "integer, age")])
      ["age?"] .output [] =
      .ok ([{ Name := "Age", GoType := "int", JSONTag := "age",
              Comment := "age" }], []) :=
  rfl

/-- C6 amended: the trailing `?` is stripped (one character) from the
external name and the identifier, while requiredness follows the role
policy alone, keyed by the raw (unstripped) field name: input marks a
present field required, output marks it required iff the raw name appears
in requiredFields. -/
theorem C6_question_suffix_amended :
    ∀ (fieldName : String) (props : List (String × GoVal))
      (rf : List String),
      goEndsWith fieldName "?" = true →
      ((createBasePicoschemaField fieldName).JSONTag =
          (fieldName.toList.take (fieldName.toList.length - 1)).asString ∧
       (createBasePicoschemaField fieldName).Name =
          SchemaFieldToGoField
            ((fieldName.toList.take (fieldName.toList.length - 1)).asString) ∧
       buildRequiredFieldsSet props rf .input fieldName =
          containsKey props fieldName ∧
       buildRequiredFieldsSet props rf .output fieldName =
          rf.contains fieldName) := by
  intro fieldName props rf h
  have hone : ("?" : String).toList.length = 1 := rfl
  refine ⟨?_, ?_, rfl, rfl⟩ <;>
    simp [createBasePicoschemaField, goTrimSuffix, h, hone]

/-- C6 amended witness at the field name `age?`. -/
theorem C6_question_suffix_amended_witness :
    goEndsWith "age?" "?" = true ∧
    ((createBasePicoschemaField "age?").JSONTag =
        ("age?".toList.take ("age?".toList.length - 1)).asString ∧
     (createBasePicoschemaField "age?").Name =
        SchemaFieldToGoField
          (("age?".toList.take ("age?".toList.length - 1)).asString) ∧
     buildRequiredFieldsSet [("age?", GoVal.strV "integer, age")] ["age?"]
        .input "age?" =
        containsKey [("age?", GoVal.strV "integer, age")] "age?" ∧
     buildRequiredFieldsSet [("age?", GoVal.strV "integer, age")] ["age?"]
        .output "age?" = ["age?"].contains "age?") := by
  refine ⟨by decide, ?_⟩
  exact C6_question_suffix_amended "age?" [("age?", GoVal.strV "integer, age")]
    ["age?"] (by decide)

/-- C2 divergence at the failing input: the resolver-style nested-order
table has an entry for the dotted path a.b listing y before x, but the
parser looks the entry up by the bare wire tag b, finds nothing, and falls
back to alphabetical order x, y for the nested record. -/
theorem C2_nested_order_dotted_path_divergence :
    ([("a", ["b"]), ("a.b", ["y", "x"])].lookup "a.b" = some ["y", "x"]) ∧
    getOrderedPropertyNames
      [("x", .mapV [("type", GoVal.strV "string")]),
       ("y", .mapV [("type", GoVal.strV "string")])] "b"
      [("a", ["b"]), ("a.b", ["y", "x"])] = ["x", "y"] ∧
    (parseJSONSchemaWithStructsAndFieldOrderAndNested
      (.mapV [("type", .strV "object"),
              ("properties", .mapV [("a", .mapV [("type", .strV "object"),
                ("properties", .mapV [("b", .mapV [("type", .strV "object"),
                  ("properties", .mapV
                    [("x", .mapV [("type", .strV "string")]),
                     ("y", .mapV [("type", .strV "string")])])])])])])])
      [] .input ["a"] [("a", ["b"]), ("a.b", ["y", "x"])]).map
        (fun r => r.2.2.map fun s => (s.Name, s.Fields.map GoField.JSONTag)) =
      .ok [("A", ["b"]), ("AB", ["x", "y"])] :=
  ⟨rfl, rfl, rfl⟩

/-- Capitalize the first character of a segment (empty segments vanish). -/
def capitalizeSegment (p : String) : String :=
  match p.toList with
  | [] => ""
  | c :: rest => (c.toUpper :: rest).asString

theorem snake_foldl_eq (parts : List String) (acc : String) :
    parts.foldl
      (fun acc part =>
        match part.toList with
        | [] => acc
        | c :: rest => acc ++ (c.toUpper :: rest).asString) acc =
      acc ++ (parts.map capitalizeSegment).foldr (· ++ ·) "" := by
  induction parts generalizing acc with
  | nil =>
    apply String.ext
    simp
  | cons p ps ih =>
    simp only [List.foldl_cons, List.map_cons, List.foldr_cons]
    rw [ih]
    cases hp : p.toList with
    | nil =>
      apply String.ext
      simp [capitalizeSegment, show p.data = [] from hp]
    | cons c rest =>
      apply String.ext
      simp [capitalizeSegment, show p.data = c :: rest from hp]

theorem SnakeToPascalCase_eq_segments (s : String) :
    SnakeToPascalCase s =
      ((goSplit s "_").map capitalizeSegment).foldr (· ++ ·) "" := by
  by_cases h : s = ""
  · subst h
    rfl
  · simp only [SnakeToPascalCase, if_neg h]
    rw [snake_foldl_eq]
    apply String.ext
    simp

/-- C8: every enum constructor (structured enum, structured array-item enum,
compact enum) gives each value the constant name formed from the enum's own
name followed by the value with dashes turned to underscores and the
underscore-separated segments capitalized and concatenated; in particular
`zh-cn` under enum `LanguageEnum` yields `LanguageEnumZhCn` and `en` yields
`LanguageEnumEn`. -/
theorem C8_enum_const_names :
    (∀ s, SnakeToPascalCase s =
      ((goSplit s "_").map capitalizeSegment).foldr (· ++ ·) "") ∧
    (∀ field ft ev f e, parseJSONSchemaEnum field ft ev = .ok (f, e) →
      e.Name = field.Name ++ "Enum" ∧
      ∀ v ∈ e.Values, v.ConstName =
        e.Name ++ SnakeToPascalCase (goReplaceAll v.Value "-" "_")) ∧
    (∀ field itemsMap f e,
      parseJSONSchemaArrayEnum field itemsMap = .ok (f, e) →
      e.Name = field.Name ++ "ItemEnum" ∧
      ∀ v ∈ e.Values, v.ConstName =
        e.Name ++ SnakeToPascalCase (goReplaceAll v.Value "-" "_")) ∧
    (∀ field tdp f e, parsePicoschemaEnum field tdp = .ok (f, e) →
      e.Name = field.Name ++ "Enum" ∧
      ∀ v ∈ e.Values, v.ConstName =
        e.Name ++ SnakeToPascalCase (goReplaceAll v.Value "-" "_")) ∧
    (EnumValueToConstName "LanguageEnum" "zh-cn" = "LanguageEnumZhCn" ∧
     EnumValueToConstName "LanguageEnum" "en" = "LanguageEnumEn") := by
  refine ⟨SnakeToPascalCase_eq_segments, ?_, ?_, ?_, rfl, rfl⟩
  · intro field ft ev f e h
    cases ev with
    | arrV enumSlice =>
      simp only [parseJSONSchemaEnum, Except.ok.injEq, Prod.mk.injEq] at h
      obtain ⟨-, he⟩ := h
      subst he
      refine ⟨rfl, ?_⟩
      intro v hv
      simp only [List.mem_map] at hv
      obtain ⟨x, -, rfl⟩ := hv
      rfl
    | nullV => simp [parseJSONSchemaEnum] at h
    | boolV b => simp [parseJSONSchemaEnum] at h
    | intV n => simp [parseJSONSchemaEnum] at h
    | strV s => simp [parseJSONSchemaEnum] at h
    | mapV m => simp [parseJSONSchemaEnum] at h
  · intro field itemsMap f e h
    cases hg : (lookupVal itemsMap "enum").getD GoVal.nullV with
    | arrV enumSlice =>
      simp only [parseJSONSchemaArrayEnum, hg, Except.ok.injEq,
        Prod.mk.injEq] at h
      obtain ⟨-, he⟩ := h
      subst he
      refine ⟨rfl, ?_⟩
      intro v hv
      simp only [List.mem_map] at hv
      obtain ⟨x, -, rfl⟩ := hv
      rfl
    | nullV => simp [parseJSONSchemaArrayEnum, hg] at h
    | boolV b => simp [parseJSONSchemaArrayEnum, hg] at h
    | intV n => simp [parseJSONSchemaArrayEnum, hg] at h
    | strV s => simp [parseJSONSchemaArrayEnum, hg] at h
    | mapV m => simp [parseJSONSchemaArrayEnum, hg] at h
  · intro field tdp f e h
    simp only [parsePicoschemaEnum] at h
    cases hm : picoEnumMatch tdp.toList with
    | none =>
      rw [hm] at h
      simp at h
    | some r =>
      obtain ⟨baseType, valuesStr⟩ := r
      rw [hm] at h
      simp only [Except.ok.injEq, Prod.mk.injEq] at h
      obtain ⟨-, he⟩ := h
      subst he
      refine ⟨rfl, ?_⟩
      intro v hv
      simp only [List.mem_map] at hv
      obtain ⟨x, -, rfl⟩ := hv
      rfl

/-- C8 witness: the compact enum declaration for `language` applied through
the theorem. -/
theorem C8_enum_const_names_witness :
    ∃ f e, parsePicoschemaEnum { Name := "Language", JSONTag := "language" }
        "string(enum): [zh-cn, en]" = .ok (f, e) ∧
      e.Name = ({ Name := "Language", JSONTag := "language" : GoField }).Name
        ++ "Enum" ∧
      ∀ v ∈ e.Values, v.ConstName =
        e.Name ++ SnakeToPascalCase (goReplaceAll v.Value "-" "_") := by
  have h : parsePicoschemaEnum
      { Name := "Language", JSONTag := "language" }
      "string(enum): [zh-cn, en]" =
      .ok ({ Name := "Language", GoType := "LanguageEnum",
             JSONTag := "language", IsEnum := true },
           { Name := "LanguageEnum", Comment := "valid language values",
             TypeName := "string",
             Values := [{ ConstName := "LanguageEnumZhCn", Value := "zh-cn" },
                        { ConstName := "LanguageEnumEn", Value := "en" }] }) :=
    rfl
  exact ⟨_, _, h, C8_enum_const_names.2.2.2.1 _ _ _ _ h⟩

theorem toList_append_str (a b : String) :
    (a ++ b).toList = a.toList ++ b.toList := by
  show (a ++ b).data = a.data ++ b.data
  exact String.data_append a b

theorem goStartsWith_bracketsFirst (x : String) :
    goStartsWith ("[]" ++ x) "*" = false := by
  have h : ("[]" ++ x).toList = '[' :: ']' :: x.toList := by
    rw [toList_append_str]
    rfl
  simp [goStartsWith, h, List.isPrefixOf]

theorem goStartsWith_starFirst (x : String) :
    goStartsWith ("*" ++ x) "*" = true := by
  have h : ("*" ++ x).toList = '*' :: x.toList := by
    rw [toList_append_str]
    rfl
  simp [goStartsWith, h, List.isPrefixOf]

theorem parseJSONSchemaArray_goType (field : GoField)
    (m : List (String × GoVal)) :
    ∃ x, parseJSONSchemaArray field m =
      { field with GoType := "[]" ++ x } := by
  unfold parseJSONSchemaArray
  split
  · exact ⟨"any", rfl⟩
  · split
    · exact ⟨_, rfl⟩
    · exact ⟨"any", rfl⟩
  · exact ⟨"any", rfl⟩

theorem parseJSONSchemaArrayEnum_goType (field : GoField)
    (m : List (String × GoVal)) (f : GoField) (e : GoEnum)
    (h : parseJSONSchemaArrayEnum field m = .ok (f, e)) :
    f.GoType = "[]" ++ (field.Name ++ "ItemEnum") := by
  simp only [parseJSONSchemaArrayEnum] at h
  split at h
  · simp only [Except.ok.injEq, Prod.mk.injEq] at h
    obtain ⟨hf, -⟩ := h
    rw [← hf]
  · simp at h

/-- C1 counterexample: with role output and an empty required list, a
nested-record (object-with-properties) field keeps the bare struct type
`Profile` with a false pointer flag — it is NOT pointer-wrapped, although
the claim requires every non-required nested-record field to be nullable. -/
theorem C1_record_field_not_wrapped_cex :
    (parseJSONSchemaWithStructsAndFieldOrderAndNested
      (.mapV [("type", .strV "object"),
              ("properties", .mapV [("profile", .mapV [("type", .strV "object"),
                ("properties", .mapV
                  [("id", .mapV [("type", .strV "string")])])])])])
      [] .output [] []).map (fun r => r.1.map fun f => (f.GoType, f.IsPointer)) =
      .ok [("Profile", false)] :=
  rfl

/-- C1 amended: for role output, a non-required enum field and a non-required
simple (primitive) field are pointer-wrapped and required ones are not;
array fields never get a pointer-wrapped type; and an object field with a
properties map always keeps the bare synthesized struct name (ancestor
prefix plus field identifier) regardless of role and requiredness — nested
record fields are never pointer-wrapped. -/
theorem C1_nullability_amended :
    (∀ field ft m req st r, handleEnumField field ft m req st = .ok r →
      r.field.GoType =
        (if st = .output ∧ req = false then "*" else "") ++
          (field.Name ++ "Enum")) ∧
    (∀ field ft req st,
      goStartsWith (convertJSONSchemaTypeToGo ft) "[]" = false →
      (handleSimpleField field ft req st).field.GoType =
        (if st = .output ∧ req = false then "*" else "") ++
          convertJSONSchemaTypeToGo ft) ∧
    (∀ fuel field m req st r, handleArrayField fuel field m req st = .ok r →
      goStartsWith r.field.GoType "*" = false) ∧
    (∀ fuel field m parent st nfo r props,
      lookupVal m "properties" = some (.mapV props) →
      handleObjectField fuel field m parent st nfo = .ok r →
      r.field.GoType =
        (if parent = "" then field.Name else parent ++ field.Name)) := by
  refine ⟨?_, ?_, ?_, ?_⟩
  · intro field ft m req st r h
    cases hg : (lookupVal m "enum").getD GoVal.nullV with
    | arrV slice =>
      simp only [handleEnumField, parseJSONSchemaEnum, hg] at h
      cases st <;> cases req <;>
        simp_all [Except.ok.injEq] <;>
        (obtain rfl := h.symm) <;> rfl
    | nullV => simp [handleEnumField, parseJSONSchemaEnum, hg] at h
    | boolV b => simp [handleEnumField, parseJSONSchemaEnum, hg] at h
    | intV n => simp [handleEnumField, parseJSONSchemaEnum, hg] at h
    | strV s => simp [handleEnumField, parseJSONSchemaEnum, hg] at h
    | mapV mm => simp [handleEnumField, parseJSONSchemaEnum, hg] at h
  · intro field ft req st hb
    cases st <;> cases req <;> simp [handleSimpleField, hb]
  · intro fuel field m req st r h
    cases fuel with
    | zero => simp [handleArrayField] at h
    | succ fuel =>
      simp only [handleArrayField] at h
      split at h
      · simp only [Except.ok.injEq] at h
        obtain ⟨x, hx⟩ := parseJSONSchemaArray_goType field m
        rw [← h, hx]
        exact goStartsWith_bracketsFirst x
      · split at h
        · cases fuel with
          | zero => simp [handleObjectArrayField] at h
          | succ fuel =>
            simp only [handleObjectArrayField] at h
            split at h
            · simp at h
            · simp only [Except.ok.injEq] at h
              rw [← h]
              exact goStartsWith_bracketsFirst _
        · split at h
          · split at h
            · simp at h
            · rename_i updatedField enumDef heq
              simp only [Except.ok.injEq] at h
              have hg := parseJSONSchemaArrayEnum_goType _ _ _ _ heq
              rw [← h, hg]
              exact goStartsWith_bracketsFirst _
          · simp only [Except.ok.injEq] at h
            obtain ⟨x, hx⟩ := parseJSONSchemaArray_goType field m
            rw [← h, hx]
            exact goStartsWith_bracketsFirst x
      · simp only [Except.ok.injEq] at h
        obtain ⟨x, hx⟩ := parseJSONSchemaArray_goType field m
        rw [← h, hx]
        exact goStartsWith_bracketsFirst x
  · intro fuel field m parent st nfo r props hp h
    cases fuel with
    | zero => simp [handleObjectField] at h
    | succ fuel =>
      simp only [handleObjectField] at h
      cases fuel with
      | zero => simp [parseJSONSchemaObjectField] at h
      | succ fuel =>
        simp only [parseJSONSchemaObjectField] at h
        split at h
        · split at h
          · simp at h
          · simp only [Except.ok.injEq] at h
            rw [← h]
            by_cases hpar : parent = ""
            · simp [hpar, updateFieldForStruct]
            · simp [hpar, updateFieldForStruct, bne_iff_ne]
        · rename_i hmiss
          exact absurd hp (hmiss _)

/-- C1 amended witness: one concrete instance per handler — a non-required
output enum field gets a star, a non-required output string field gets a
star, an array of strings gets no star, and a nested object field under an
ancestor keeps the bare concatenated struct name. -/
theorem C1_nullability_amended_witness :
    (∃ r, handleEnumField { Name := "Status", JSONTag := "status" } "string"
        [("enum", GoVal.arrV [GoVal.strV "active"])] false .output = .ok r ∧
      r.field.GoType =
        (if SchemaType.output = SchemaType.output ∧ false = false
         then "*" else "") ++
          (({ Name := "Status", JSONTag := "status" : GoField }).Name ++
            "Enum")) ∧
    (goStartsWith (convertJSONSchemaTypeToGo "string") "[]" = false ∧
     (handleSimpleField { Name := "Age", JSONTag := "age" } "string" false
        .output).field.GoType =
       (if SchemaType.output = SchemaType.output ∧ false = false
        then "*" else "") ++ convertJSONSchemaTypeToGo "string") ∧
    (∃ r, handleArrayField 3 { Name := "Tags", JSONTag := "tags" }
        [("items", GoVal.mapV [("type", GoVal.strV "string")])] false
        .output = .ok r ∧
      goStartsWith r.field.GoType "*" = false) ∧
    (∃ r, handleObjectField 9 { Name := "Role", JSONTag := "role" }
        [("type", GoVal.strV "object"),
         ("properties", GoVal.mapV
           [("id", GoVal.mapV [("type", GoVal.strV "string")])])]
        "UserProfile" .output [] = .ok r ∧
      r.field.GoType =
        (if ("UserProfile" : String) = ""
         then ({ Name := "Role", JSONTag := "role" : GoField }).Name
         else "UserProfile" ++
           ({ Name := "Role", JSONTag := "role" : GoField }).Name)) := by
  have h1 : handleEnumField { Name := "Status", JSONTag := "status" }
      "string" [("enum", GoVal.arrV [GoVal.strV "active"])] false .output =
      .ok ⟨{ Name := "Status", GoType := "*StatusEnum", JSONTag := "status",
             IsEnum := true },
           [{ Name := "StatusEnum", Comment := "valid status values",
              TypeName := "string",
              Values := [{ ConstName := "StatusEnumActive",
                           Value := "active" }] }], none, []⟩ := rfl
  have h3 : handleArrayField 3 { Name := "Tags", JSONTag := "tags" }
      [("items", GoVal.mapV [("type", GoVal.strV "string")])] false .output =
      .ok ⟨{ Name := "Tags", GoType := "[]string", JSONTag := "tags" },
           [], none, []⟩ := rfl
  have h4 : handleObjectField 9 { Name := "Role", JSONTag := "role" }
      [("type", GoVal.strV "object"),
       ("properties", GoVal.mapV
         [("id", GoVal.mapV [("type", GoVal.strV "string")])])]
      "UserProfile" .output [] =
      .ok ⟨{ Name := "UserProfileRole", GoType := "UserProfileRole",
             JSONTag := "role", IsObject := true },
           [],
           some { Name := "UserProfileRole",
                  Comments := ["UserProfileRole represents "],
                  Fields := [{ Name := "Id", GoType := "*string",
                               JSONTag := "id", IsPointer := true }] },
           []⟩ := rfl
  refine ⟨⟨_, h1, ?_⟩, ⟨by decide, ?_⟩, ⟨_, h3, ?_⟩, ⟨_, h4, ?_⟩⟩
  · exact C1_nullability_amended.1 _ _ _ _ _ _ h1
  · exact C1_nullability_amended.2.1 _ _ _ _ (by decide)
  · exact C1_nullability_amended.2.2.1 _ _ _ _ _ _ h3
  · exact C1_nullability_amended.2.2.2 9 { Name := "Role", JSONTag := "role" }
      [("type", GoVal.strV "object"),
       ("properties", GoVal.mapV
         [("id", GoVal.mapV [("type", GoVal.strV "string")])])]
      "UserProfile" .output [] _
      [("id", GoVal.mapV [("type", GoVal.strV "string")])] rfl h4

/-- C7: an object field named role parsed with ancestor prefix UserProfile
always synthesizes its record as UserProfileRole (never bare Role); at the
concrete two-level schema with a root-level role record as well, the three
synthesized records are Role, UserProfile and UserProfileRole, pairwise
distinct. -/
theorem C7_nested_record_naming :
    (∀ fuel m req st nfo r props,
      hasEnum m = false →
      getFieldTypeFromSchema m = "object" →
      lookupVal m "properties" = some (.mapV props) →
      parseJSONSchemaFieldWithNestedRecursive fuel "role" (.mapV m) req
        "UserProfile" st nfo = .ok r →
      r.directStruct.map GoStruct.Name = some "UserProfileRole") ∧
    ((parseJSONSchemaWithStructsAndFieldOrderAndNested
      (.mapV [("type", .strV "object"),
              ("properties", .mapV [
                ("role", .mapV [("type", .strV "object"),
                  ("properties", .mapV
                    [("id", .mapV [("type", .strV "string")])])]),
                ("user_profile", .mapV [("type", .strV "object"),
                  ("properties", .mapV [("role", .mapV
                    [("type", .strV "object"),
                     ("properties", .mapV [("name", .mapV
                       [("type", .strV "string")])])])])])])])
      [] .output [] []).map (fun r => r.2.2.map GoStruct.Name) =
      .ok ["Role", "UserProfile", "UserProfileRole"]) := by
  constructor
  · intro fuel m req st nfo r props h1 h2 h3 h
    cases fuel with
    | zero => simp [parseJSONSchemaFieldWithNestedRecursive] at h
    | succ fuel =>
      simp only [parseJSONSchemaFieldWithNestedRecursive] at h
      rw [h1, h2] at h
      simp at h
      cases fuel with
      | zero => simp [handleObjectField] at h
      | succ fuel =>
        simp only [handleObjectField] at h
        simp at h
        cases fuel with
        | zero => simp [parseJSONSchemaObjectField] at h
        | succ fuel =>
          simp only [parseJSONSchemaObjectField] at h
          split at h
          · split at h
            · simp at h
            · simp only [Except.ok.injEq] at h
              rw [← h]
              rfl
          · rename_i hmiss
            exact absurd h3 (hmiss _)
  · rfl

/-- C7 witness at a concrete inner schema for the role field. -/
theorem C7_nested_record_naming_witness :
    (hasEnum [("type", GoVal.strV "object"),
              ("properties", GoVal.mapV
                [("name", GoVal.mapV [("type", GoVal.strV "string")])])] =
        false ∧
     getFieldTypeFromSchema [("type", GoVal.strV "object"),
              ("properties", GoVal.mapV
                [("name", GoVal.mapV [("type", GoVal.strV "string")])])] =
        "object") ∧
    ∃ r, parseJSONSchemaFieldWithNestedRecursive 9 "role"
        (.mapV [("type", GoVal.strV "object"),
                ("properties", GoVal.mapV
                  [("name", GoVal.mapV [("type", GoVal.strV "string")])])])
        false "UserProfile" .output [] = .ok r ∧
      r.directStruct.map GoStruct.Name = some "UserProfileRole" := by
  have h : parseJSONSchemaFieldWithNestedRecursive 9 "role"
      (.mapV [("type", GoVal.strV "object"),
              ("properties", GoVal.mapV
                [("name", GoVal.mapV [("type", GoVal.strV "string")])])])
      false "UserProfile" .output [] =
      .ok ⟨{ Name := "UserProfileRole", GoType := "UserProfileRole",
             JSONTag := "role", IsObject := true },
           [],
           some { Name := "UserProfileRole",
                  Comments := ["UserProfileRole represents "],
                  Fields := [{ Name := "Name", GoType := "*string",
                               JSONTag := "name", IsPointer := true }] },
           []⟩ := rfl
  refine ⟨⟨by decide, by decide⟩, _, h, ?_⟩
  exact C7_nested_record_naming.1 9
    [("type", GoVal.strV "object"),
     ("properties", GoVal.mapV
       [("name", GoVal.mapV [("type", GoVal.strV "string")])])]
    false .output [] _
    [("name", GoVal.mapV [("type", GoVal.strV "string")])]
    (by decide) (by decide) rfl h

/-! ## Pointer-flag invariant (C9) -/

/-- Agreement of the pointer flag with the type string, allowing the single
exception of an enum field whose type was pointer-wrapped after the flag
was computed. -/
def pointerFlagOk (f : GoField) : Prop :=
  f.IsPointer = goStartsWith f.GoType "*" ∨
  (f.IsEnum = true ∧ goStartsWith f.GoType "*" = true ∧ f.IsPointer = false)

/-- All fields of a list of structs. -/
def fieldsOfStructs (ss : List GoStruct) : List GoField :=
  ss.foldr (fun s acc => s.Fields ++ acc) []

/-- All fields a recursive field-parse result carries: the field itself and
every field of the direct and deeply nested structs. -/
def fieldsOfParsed (r : ParsedField) : List GoField :=
  r.field ::
    fieldsOfStructs
      ((match r.directStruct with | some s => [s] | none => []) ++
        r.nestedStructs)

theorem fieldsOfStructs_append (a b : List GoStruct) :
    fieldsOfStructs (a ++ b) = fieldsOfStructs a ++ fieldsOfStructs b := by
  induction a with
  | nil => rfl
  | cons s rest ih =>
    simp only [List.cons_append, fieldsOfStructs, List.foldr_cons] at ih ⊢
    rw [ih, List.append_assoc]

theorem mem_fieldsOfParsed_single {f g : GoField} {es : List GoEnum}
    (hf : f ∈ fieldsOfParsed ⟨g, es, none, []⟩) : f = g := by
  simpa [fieldsOfParsed, fieldsOfStructs] using hf

theorem pointerFlagOk_simple (field : GoField) (ft : String) (req : Bool)
    (st : SchemaType) :
    pointerFlagOk (handleSimpleField field ft req st).field := by
  left
  rfl

theorem handleEnumField_inv (field : GoField) (ft : String)
    (m : List (String × GoVal)) (req : Bool) (st : SchemaType)
    (r : ParsedField) (h : handleEnumField field ft m req st = .ok r) :
    ∀ f ∈ fieldsOfParsed r, pointerFlagOk f := by
  cases hg : (lookupVal m "enum").getD GoVal.nullV with
  | arrV slice =>
    simp only [handleEnumField, parseJSONSchemaEnum, hg] at h
    split at h <;> simp only [Except.ok.injEq] at h <;> subst h <;>
      intro f hf <;> rw [mem_fieldsOfParsed_single hf]
    · by_cases hstar : goStartsWith (field.Name ++ "Enum") "*" = true
      · left
        show goStartsWith (field.Name ++ "Enum") "*" =
          goStartsWith ("*" ++ (field.Name ++ "Enum")) "*"
        rw [hstar, goStartsWith_starFirst]
      · right
        refine ⟨rfl, goStartsWith_starFirst _, ?_⟩
        show goStartsWith (field.Name ++ "Enum") "*" = false
        exact Bool.eq_false_iff.mpr hstar
    · left
      rfl
  | nullV => simp [handleEnumField, parseJSONSchemaEnum, hg] at h
  | boolV b => simp [handleEnumField, parseJSONSchemaEnum, hg] at h
  | intV n => simp [handleEnumField, parseJSONSchemaEnum, hg] at h
  | strV s => simp [handleEnumField, parseJSONSchemaEnum, hg] at h
  | mapV mm => simp [handleEnumField, parseJSONSchemaEnum, hg] at h

theorem parseJSONSchemaArray_inv (field : GoField)
    (m : List (String × GoVal)) (hp : field.IsPointer = false) :
    pointerFlagOk (parseJSONSchemaArray field m) := by
  obtain ⟨x, hx⟩ := parseJSONSchemaArray_goType field m
  rw [hx]
  left
  show field.IsPointer = goStartsWith ("[]" ++ x) "*"
  rw [hp, goStartsWith_bracketsFirst]

theorem parseJSONSchemaArrayEnum_inv (field : GoField)
    (m : List (String × GoVal)) (f : GoField) (e : GoEnum)
    (h : parseJSONSchemaArrayEnum field m = .ok (f, e)) :
    pointerFlagOk f := by
  simp only [parseJSONSchemaArrayEnum] at h
  split at h
  · simp only [Except.ok.injEq, Prod.mk.injEq] at h
    obtain ⟨hf, -⟩ := h
    rw [← hf]
    left
    show false = goStartsWith ("[]" ++ (field.Name ++ "ItemEnum")) "*"
    rw [goStartsWith_bracketsFirst]
  · simp at h

theorem parser_pointerFlag_inv : ∀ fuel : Nat,
    (∀ name v req parent st nfo r,
      parseJSONSchemaFieldWithNestedRecursive fuel name v req parent st
        nfo = .ok r →
      ∀ f ∈ fieldsOfParsed r, pointerFlagOk f) ∧
    (∀ field m req st r, field.IsPointer = false →
      handleArrayField fuel field m req st = .ok r →
      ∀ f ∈ fieldsOfParsed r, pointerFlagOk f) ∧
    (∀ field m st r, field.IsPointer = false →
      handleObjectArrayField fuel field m st = .ok r →
      ∀ f ∈ fieldsOfParsed r, pointerFlagOk f) ∧
    (∀ field m parent st nfo r, field.IsPointer = false →
      handleObjectField fuel field m parent st nfo = .ok r →
      ∀ f ∈ fieldsOfParsed r, pointerFlagOk f) ∧
    (∀ field m st nfo r, field.IsPointer = false →
      parseJSONSchemaObjectField fuel field m st nfo = .ok r →
      ∀ f ∈ fieldsOfParsed r, pointerFlagOk f) ∧
    (∀ props propNames reqF sName st nfo out,
      processNestedProperties fuel props propNames reqF sName st nfo =
        .ok out →
      ∀ f ∈ out.1 ++ fieldsOfStructs out.2.2, pointerFlagOk f) := by
  intro fuel
  induction fuel with
  | zero =>
    refine ⟨?_, ?_, ?_, ?_, ?_, ?_⟩ <;> intros <;>
      simp_all [parseJSONSchemaFieldWithNestedRecursive, handleArrayField,
        handleObjectArrayField, handleObjectField,
        parseJSONSchemaObjectField, processNestedProperties]
  | succ fuel ih =>
    obtain ⟨ihA, ihB, ihC, ihD, ihE, ihF⟩ := ih
    refine ⟨?_, ?_, ?_, ?_, ?_, ?_⟩
    · intro name v req parent st nfo r h
      cases v with
      | mapV m =>
        simp only [parseJSONSchemaFieldWithNestedRecursive] at h
        split at h
        · exact handleEnumField_inv _ _ _ _ _ _ h
        · split at h
          · exact ihB _ _ _ _ _ rfl h
          · split at h
            · exact ihD _ _ _ _ _ _ rfl h
            · simp only [Except.ok.injEq] at h
              rw [← h]
              intro f hf
              rw [mem_fieldsOfParsed_single hf]
              exact pointerFlagOk_simple _ _ _ _
      | nullV => simp [parseJSONSchemaFieldWithNestedRecursive] at h
      | boolV b => simp [parseJSONSchemaFieldWithNestedRecursive] at h
      | intV n => simp [parseJSONSchemaFieldWithNestedRecursive] at h
      | strV s => simp [parseJSONSchemaFieldWithNestedRecursive] at h
      | arrV xs => simp [parseJSONSchemaFieldWithNestedRecursive] at h
    · intro field m req st r hp h
      simp only [handleArrayField] at h
      split at h
      · simp only [Except.ok.injEq] at h
        rw [← h]
        intro f hf
        rw [mem_fieldsOfParsed_single hf]
        exact parseJSONSchemaArray_inv _ _ hp
      · split at h
        · exact ihC _ _ _ _ hp h
        · split at h
          · split at h
            · simp at h
            · rename_i updatedField enumDef heq
              simp only [Except.ok.injEq] at h
              rw [← h]
              intro f hf
              rw [mem_fieldsOfParsed_single hf]
              exact parseJSONSchemaArrayEnum_inv _ _ _ _ heq
          · simp only [Except.ok.injEq] at h
            rw [← h]
            intro f hf
            rw [mem_fieldsOfParsed_single hf]
            exact parseJSONSchemaArray_inv _ _ hp
      · simp only [Except.ok.injEq] at h
        rw [← h]
        intro f hf
        rw [mem_fieldsOfParsed_single hf]
        exact parseJSONSchemaArray_inv _ _ hp
    · intro field m st r hp h
      simp only [handleObjectArrayField] at h
      split at h
      · simp at h
      · rename_i pf heq
        simp only [Except.ok.injEq] at h
        rw [← h]
        intro f hf
        simp only [fieldsOfParsed, List.mem_cons] at hf
        rcases hf with hf | hf
        · subst hf
          left
          show field.IsPointer =
            goStartsWith ("[]" ++ (field.Name ++ "Item")) "*"
          rw [hp, goStartsWith_bracketsFirst]
        · have := ihE _ _ _ _ _ rfl heq
          exact this f (by simp [fieldsOfParsed, hf])
    · intro field m parent st nfo r hp h
      simp only [handleObjectField] at h
      have hp2 : (if (parent != "") = true then
          { field with Name := parent ++ field.Name }
        else field).IsPointer = false := by
        split <;> exact hp
      exact ihE _ _ _ _ _ hp2 h
    · intro field m st nfo r hp h
      simp only [parseJSONSchemaObjectField] at h
      split at h
      · split at h
        · simp at h
        · rename_i nestedFields allEnums deepStructs heq
          simp only [Except.ok.injEq] at h
          rw [← h]
          intro f hf
          simp only [fieldsOfParsed, List.mem_cons] at hf
          rcases hf with hf | hf
          · subst hf
            left
            rfl
          · have hmem : f ∈ nestedFields ++ fieldsOfStructs deepStructs := by
              simpa [fieldsOfStructs] using hf
            have := ihF _ _ _ _ _ _ _ heq
            exact this f (by simpa [fieldsOfStructs] using hmem)
      · simp only [Except.ok.injEq] at h
        rw [← h]
        intro f hf
        rw [mem_fieldsOfParsed_single hf]
        left
        show field.IsPointer = goStartsWith "map[string]any" "*"
        rw [hp]
        decide
    · intro props propNames reqF sName st nfo out h
      simp only [processNestedProperties] at h
      split at h
      · simp only [Except.ok.injEq] at h
        rw [← h]
        intro f hf
        simp [fieldsOfStructs] at hf
      · split at h
        · simp at h
        · split at h
          · simp at h
          · rename_i pf hpf
            split at h
            · simp at h
            · rename_i nf ae ds hrest
              simp only [Except.ok.injEq] at h
              rw [← h]
              intro f hf
              simp only [List.mem_append, List.mem_cons] at hf
              have hparsed := ihA _ _ _ _ _ _ _ hpf
              have hrest2 := ihF _ _ _ _ _ _ _ hrest
              rcases hf with (hf | hf) | hf
              · subst hf
                exact hparsed _ (by simp [fieldsOfParsed])
              · exact hrest2 f (by simp [hf])
              · rw [fieldsOfStructs_append, fieldsOfStructs_append,
                  List.mem_append, List.mem_append] at hf
                rcases hf with (hf | hf) | hf
                · exact hparsed f (by
                    simp only [fieldsOfParsed, List.mem_cons]
                    right
                    rw [fieldsOfStructs_append, List.mem_append]
                    exact Or.inl hf)
                · exact hparsed f (by
                    simp only [fieldsOfParsed, List.mem_cons]
                    right
                    rw [fieldsOfStructs_append, List.mem_append]
                    exact Or.inr hf)
                · exact hrest2 f (by simp [hf])

theorem handlePicoschemaEnum_inv (field : GoField) (tdp : String)
    (req : Bool) (st : SchemaType) (f : GoField) (eo : Option GoEnum)
    (h : handlePicoschemaEnum field tdp req st = .ok (f, eo)) :
    pointerFlagOk f := by
  simp only [handlePicoschemaEnum, parsePicoschemaEnum] at h
  cases hm : picoEnumMatch tdp.toList with
  | none =>
    rw [hm] at h
    simp at h
  | some r =>
    obtain ⟨baseType, valuesStr⟩ := r
    rw [hm] at h
    simp only [Except.ok.injEq, Prod.mk.injEq] at h
    obtain ⟨hf, -⟩ := h
    subst hf
    by_cases hw : (st == SchemaType.output && !req) = true
    · simp only [if_pos hw]
      by_cases hstar : goStartsWith (field.Name ++ "Enum") "*" = true
      · left
        show goStartsWith (field.Name ++ "Enum") "*" =
          goStartsWith ("*" ++ (field.Name ++ "Enum")) "*"
        rw [hstar, goStartsWith_starFirst]
      · right
        refine ⟨rfl, goStartsWith_starFirst _, ?_⟩
        show goStartsWith (field.Name ++ "Enum") "*" = false
        exact Bool.eq_false_iff.mpr hstar
    · simp only [if_neg hw]
      left
      rfl

theorem parsePicoschemaField_inv (name : String) (fieldDef : GoVal)
    (req : Bool) (st : SchemaType) (f : GoField) (eo : Option GoEnum)
    (h : parsePicoschemaField name fieldDef req st = .ok (f, eo)) :
    pointerFlagOk f := by
  cases fieldDef with
  | strV fieldStr =>
    simp only [parsePicoschemaField] at h
    split at h
    · exact handlePicoschemaEnum_inv _ _ _ _ _ _ h
    · split at h
      · simp only [handlePicoschemaArray] at h
        split at h
        · simp at h
        · rename_i field2 heq
          simp only [Except.ok.injEq, Prod.mk.injEq] at h
          obtain ⟨hf, -⟩ := h
          subst hf
          simp only [parsePicoschemaArray] at heq
          split at heq
          · simp at heq
          · simp only [Except.ok.injEq] at heq
            subst heq
            left
            show false = goStartsWith ("[]" ++ _) "*"
            rw [goStartsWith_bracketsFirst]
      · simp only [Except.ok.injEq, Prod.mk.injEq] at h
        obtain ⟨hf, -⟩ := h
        subst hf
        left
        rfl
  | nullV => simp [parsePicoschemaField] at h
  | boolV b => simp [parsePicoschemaField] at h
  | intV n => simp [parsePicoschemaField] at h
  | arrV xs => simp [parsePicoschemaField] at h
  | mapV m => simp [parsePicoschemaField] at h

theorem parsePicoschemaFields_inv (fieldNames : List String)
    (schemaMap : List (String × GoVal)) (requiredSet : String → Bool)
    (st : SchemaType) (out : List GoField × List GoEnum)
    (h : parsePicoschemaFields schemaMap fieldNames requiredSet st =
      .ok out) :
    ∀ f ∈ out.1, pointerFlagOk f := by
  induction fieldNames generalizing out with
  | nil =>
    simp only [parsePicoschemaFields, Except.ok.injEq] at h
    subst h
    simp
  | cons name rest ih =>
    simp only [parsePicoschemaFields] at h
    cases hfe : parsePicoschemaField name
        ((lookupVal schemaMap name).getD GoVal.nullV) (requiredSet name)
        st with
    | error e =>
      rw [hfe] at h
      simp at h
    | ok fe =>
      obtain ⟨field, enumDef⟩ := fe
      rw [hfe] at h
      cases hrest : parsePicoschemaFields schemaMap rest requiredSet st with
      | error e =>
        rw [hrest] at h
        simp at h
      | ok out2 =>
        obtain ⟨fields, enums⟩ := out2
        rw [hrest] at h
        simp only [Except.ok.injEq] at h
        subst h
        intro f hf
        simp only [List.mem_cons] at hf
        rcases hf with hf | hf
        · subst hf
          exact parsePicoschemaField_inv _ _ _ _ _ _ hfe
        · exact ih _ hrest f hf

theorem parseRootFields_inv (fieldNames : List String) (fuel : Nat)
    (properties : List (String × GoVal)) (requiredSet : String → Bool)
    (st : SchemaType) (nfo : List (String × List String))
    (out : List GoField × List GoEnum × List GoStruct)
    (h : parseRootFields fuel properties fieldNames requiredSet st nfo =
      .ok out) :
    ∀ f ∈ out.1 ++ fieldsOfStructs out.2.2, pointerFlagOk f := by
  induction fieldNames generalizing out with
  | nil =>
    simp only [parseRootFields, Except.ok.injEq] at h
    subst h
    simp [fieldsOfStructs]
  | cons name rest ih =>
    simp only [parseRootFields] at h
    cases hpf : parseJSONSchemaFieldWithNestedRecursive fuel name
        ((lookupVal properties name).getD GoVal.nullV) (requiredSet name)
        "" st nfo with
    | error e =>
      rw [hpf] at h
      simp at h
    | ok pf =>
      rw [hpf] at h
      cases hrest : parseRootFields fuel properties rest requiredSet st
          nfo with
      | error e =>
        rw [hrest] at h
        simp at h
      | ok out2 =>
        obtain ⟨fields, enums, structs⟩ := out2
        rw [hrest] at h
        simp only [Except.ok.injEq] at h
        subst h
        intro f hf
        have hparsed := (parser_pointerFlag_inv fuel).1 _ _ _ _ _ _ _ hpf
        have htail := ih _ hrest
        simp only [List.mem_append, List.mem_cons] at hf
        rcases hf with (hf | hf) | hf
        · subst hf
          exact hparsed _ (by simp [fieldsOfParsed])
        · exact htail f (by simp [hf])
        · rw [fieldsOfStructs_append, fieldsOfStructs_append,
            List.mem_append, List.mem_append] at hf
          rcases hf with (hf | hf) | hf
          · exact hparsed f (by
              simp only [fieldsOfParsed, List.mem_cons]
              right
              rw [fieldsOfStructs_append, List.mem_append]
              exact Or.inl hf)
          · exact hparsed f (by
              simp only [fieldsOfParsed, List.mem_cons]
              right
              rw [fieldsOfStructs_append, List.mem_append]
              exact Or.inr hf)
          · exact htail f (by simp [hf])

/-- C9 counterexample: a non-required output enum field comes back with the
pointer-wrapped type *StatusEnum while its IsPointer flag is still false,
so the flag and the type string disagree. -/
theorem C9_enum_pointer_flag_cex :
    (parseJSONSchemaFieldWithNestedRecursive 2 "status"
      (.mapV [("type", .strV "string"),
              ("enum", .arrV [.strV "active", .strV "inactive"])])
      false "" .output []).map
        (fun r => (r.field.GoType, r.field.IsPointer)) =
      .ok ("*StatusEnum", false) ∧
    goStartsWith "*StatusEnum" "*" = true :=
  ⟨rfl, rfl⟩

/-- C9 amended: for every field either dialect's parser produces (root
fields and fields of every synthesized struct), the IsPointer flag equals
whether the type string begins with `*`, except for enum fields whose type
was pointer-wrapped for a non-required output field after the flag was
computed — there the type begins with `*` while IsPointer stays false. -/
theorem C9_pointer_flag_amended :
    ∀ schema rf st fo out,
      ParseSchemaWithStructsAndFieldOrder schema rf st fo = .ok out →
      ∀ f ∈ out.1 ++ fieldsOfStructs out.2.2, pointerFlagOk f := by
  intro schema rf st fo out h
  cases schema with
  | nullV =>
    simp only [ParseSchemaWithStructsAndFieldOrder, Except.ok.injEq] at h
    subst h
    simp [fieldsOfStructs]
  | mapV m =>
    simp only [ParseSchemaWithStructsAndFieldOrder] at h
    split at h
    · cases hpico : parsePicoschemaWithFieldOrder (GoVal.mapV m) rf st
          fo with
      | error e =>
        rw [hpico] at h
        simp at h
      | ok out2 =>
        obtain ⟨fields, enums⟩ := out2
        rw [hpico] at h
        simp only [Except.ok.injEq] at h
        subst h
        intro f hf
        simp only [List.mem_append] at hf
        rcases hf with hf | hf
        · simp only [parsePicoschemaWithFieldOrder] at hpico
          exact parsePicoschemaFields_inv _ _ _ _ _ hpico f hf
        · simp [fieldsOfStructs] at hf
    · split at h
      · simp only [parseJSONSchemaWithStructsAndFieldOrder,
          parseJSONSchemaWithStructsAndFieldOrderAndNested] at h
        split at h
        · exact parseRootFields_inv _ _ _ _ _ _ _ h
        · simp at h
      · simp at h
  | boolV b => simp [ParseSchemaWithStructsAndFieldOrder, IsPicoschema,
      IsJSONSchema] at h
  | intV n => simp [ParseSchemaWithStructsAndFieldOrder, IsPicoschema,
      IsJSONSchema] at h
  | strV s => simp [ParseSchemaWithStructsAndFieldOrder, IsPicoschema,
      IsJSONSchema] at h
  | arrV xs => simp [ParseSchemaWithStructsAndFieldOrder, IsPicoschema,
      IsJSONSchema] at h

/-- C9 amended witness: the status enum schema parsed for output exercises
the exception case of the invariant. -/
theorem C9_pointer_flag_amended_witness :
    (ParseSchemaWithStructsAndFieldOrder
      (.mapV [("type", GoVal.strV "object"),
              ("properties", GoVal.mapV [("status", GoVal.mapV
                [("type", GoVal.strV "string"),
                 ("enum", GoVal.arrV [GoVal.strV "active"])])])])
      [] .output [] =
      .ok ([{ Name := "Status", GoType := "*StatusEnum", JSONTag := "status",
              IsEnum := true }],
           [{ Name := "StatusEnum", Comment := "valid status values",
              TypeName := "string",
              Values := [{ ConstName := "StatusEnumActive",
                           Value := "active" }] }], [])) ∧
    pointerFlagOk { Name := "Status", GoType := "*StatusEnum",
                    JSONTag := "status", IsEnum := true } := by
  have h : ParseSchemaWithStructsAndFieldOrder
      (.mapV [("type", GoVal.strV "object"),
              ("properties", GoVal.mapV [("status", GoVal.mapV
                [("type", GoVal.strV "string"),
                 ("enum", GoVal.arrV [GoVal.strV "active"])])])])
      [] .output [] =
      .ok ([{ Name := "Status", GoType := "*StatusEnum", JSONTag := "status",
              IsEnum := true }],
           [{ Name := "StatusEnum", Comment := "valid status values",
              TypeName := "string",
              Values := [{ ConstName := "StatusEnumActive",
                           Value := "active" }] }], []) := rfl
  refine ⟨h, ?_⟩
  exact C9_pointer_flag_amended _ _ _ _ _ h _ (by simp [fieldsOfStructs])

end DotpromptGen
